import Mathlib

/-!
A shallow embedding of the hashing and indexing engine of
`ankerl::unordered_dense` (src/include/ankerl/unordered_dense.h, version 0.0.1),
specialised to the map case with `Key = T = uint64` values modelled as `Nat`,
the default hash (`std::hash` on an integer is the identity, and the default
`ankerl::unordered_dense::hash` is not avalanching, so the engine applies the
multiply-xor mix), the default `std::equal_to` equality, and the default
`max_load_factor` of `0.8f`.

Machine integers are modelled as `Nat` with explicit reductions `% 2^32`
(for `uint32_t` fields) and `% 2^64` (for `uint64_t` values) at the points
where the C++ types force a reduction.  The float computation
`static_cast<uint64_t>(num_buckets * max_load_factor())` is exact in the
source whenever `num_buckets` is a power of two, because `0.8f` is exactly
`13421773 / 2^24` and multiplying a float by a power of two is exact; it is
therefore modelled as `num_buckets * 13421773 / 2^24` in `Nat`.

The source's unbounded `while` loops are modelled with an explicit fuel
parameter; `none` means the fuel ran out, which never happens on the states
the container actually reaches (load factor below 1 guarantees an empty
bucket terminates every probe).  The fallible operations therefore return
`Option`.
-/

namespace UnorderedDense

/-- Modulus of the `uint32_t` type. -/
def U32 : Nat := 2 ^ 32

/-- Modulus of the `uint64_t` type. -/
def U64 : Nat := 2 ^ 64

/-- One metadata slot (struct `Bucket`, unordered_dense.h:271-282): the upper
3 bytes of `dist_and_fingerprint` encode distance-to-home plus one (0 means
empty), the low byte a fingerprint from the hash; `value_idx` indexes the
dense value vector.  Both fields are `uint32_t`. -/
structure Bucket where
  dist_and_fingerprint : Nat
  value_idx : Nat
deriving DecidableEq

/-- The table state (class `table`, unordered_dense.h:242):
`values` models `m_values` (dense vector of key-value pairs),
`buckets` models the metadata array `[m_buckets_start, m_buckets_end)`
(`[]` when `m_buckets_start == nullptr`, the freshly constructed state),
`max_bucket_capacity` models the `uint32_t` member `m_max_bucket_capacity`,
and `shifts` models the `uint8_t` member `m_shifts`. -/
structure Table where
  values : List (Nat × Nat)
  buckets : List Bucket
  max_bucket_capacity : Nat
  shifts : Nat
deriving DecidableEq

/-- `BUCKET_DIST_INC = 1 << 8` (unordered_dense.h:250). -/
def BUCKET_DIST_INC : Nat := 256

/-- `INITIAL_SHIFTS = 64 - 3` (unordered_dense.h:252). -/
def INITIAL_SHIFTS : Nat := 61

/-- `wyhash::mix(a, b)` (unordered_dense.h:103): the 128-bit product of two
64-bit words, low half xor high half. -/
def mix (a b : Nat) : Nat :=
  let r := (a % U64) * (b % U64)
  (r % U64) ^^^ (r / U64)

/-- `mixed_hash(key)` (unordered_dense.h:313): the default `hash<uint64>` is
`std::hash`, i.e. the identity, and does not declare `is_avalanching`, so the
engine mixes it with the golden-ratio constant. -/
def mixed_hash (k : Nat) : Nat :=
  mix (k % U64) 0x9E3779B97F4A7C15

/-- `dist_and_fingerprint_from_hash` (unordered_dense.h:327):
`BUCKET_DIST_INC | (hash & BUCKET_FINGERPRINT_MASK)`. -/
def dist_and_fingerprint_from_hash (h : Nat) : Nat :=
  BUCKET_DIST_INC ||| (h % 256)

/-- `bucket_from_hash` (unordered_dense.h:331): the index of the home bucket
is `hash >> m_shifts`. -/
def bucket_idx_from_hash (h shifts : Nat) : Nat :=
  h >>> shifts

/-- `next(bucket)` (unordered_dense.h:298): advance by one slot, wrapping to
the start at the end of the metadata array. -/
def nextIdx (len i : Nat) : Nat :=
  if i + 1 = len then 0 else i + 1

/-- Read of `m_buckets_start[i]`; in the states the engine reaches the index
is always in range, so the default is immaterial. -/
def getBucket (bs : List Bucket) (i : Nat) : Bucket :=
  bs.getD i ⟨0, 0⟩

/-- Read of `m_values[i]`; in the states the engine reaches the index is
always in range, so the default is immaterial. -/
def getValue (vs : List (Nat × Nat)) (i : Nat) : Nat × Nat :=
  vs.getD i (0, 0)

/-- `static_cast<uint64_t>(num_buckets * max_load_factor())` for the default
`max_load_factor() == 0.8f == 13421773 * 2^-24`, which the source evaluates
exactly when `num_buckets` is a power of two. -/
def bucket_capacity (num_buckets : Nat) : Nat :=
  num_buckets * 13421773 / 2 ^ 24

/-- `calc_num_buckets(shifts)` (unordered_dense.h:375): `1 << (64 - shifts)`. -/
def calc_num_buckets (shifts : Nat) : Nat :=
  2 ^ (64 - shifts)

/-- The loop of `calc_shifts_for_size` (unordered_dense.h:379-385): starting
from the current shift count, decrement while the capacity at that shift
count is below the requested size.  (The source would wrap the `uint8_t`
below zero; that region is unreachable for any size a table can hold, and
the model stops at 0.) -/
def calc_shifts_go : Nat → Nat → Nat
  | 0, _ => 0
  | sh + 1, s =>
    if bucket_capacity (calc_num_buckets (sh + 1)) < s then calc_shifts_go sh s
    else sh + 1

/-- `calc_shifts_for_size(s)` (unordered_dense.h:379): the loop always starts
at `INITIAL_SHIFTS`. -/
def calc_shifts_for_size (s : Nat) : Nat :=
  calc_shifts_go INITIAL_SHIFTS s

/-- `allocate_and_clear_buckets` (unordered_dense.h:414-421): allocate
`1 << (64 - m_shifts)` zeroed slots and recompute `m_max_bucket_capacity`
(a `uint32_t`, hence the `% U32`). -/
def allocate_and_clear_buckets (s : Table) : Table :=
  let num_buckets := 2 ^ (64 - s.shifts)
  { s with
    buckets := List.replicate num_buckets ⟨0, 0⟩
    max_bucket_capacity := bucket_capacity num_buckets % U32 }

/-- `clear` (unordered_dense.h:734-737): empty the value vector and zero the
existing metadata slots (their number is unchanged). -/
def clear (s : Table) : Table :=
  { s with
    values := []
    buckets := List.replicate s.buckets.length ⟨0, 0⟩ }

/-- `place_and_shift_up(bucket, place)` (unordered_dense.h:366-373): write the
incoming slot at `place`, shifting any occupant up (distance incremented by
`BUCKET_DIST_INC`, a `uint32_t` addition) until an empty slot absorbs the
tail. -/
def place_and_shift_up (bs : List Bucket) (b : Bucket) (place : Nat) :
    Nat → Option (List Bucket)
  | 0 => none
  | fuel + 1 =>
    let cur := getBucket bs place
    if cur.dist_and_fingerprint ≠ 0 then
      place_and_shift_up (bs.set place b)
        ⟨(cur.dist_and_fingerprint + BUCKET_DIST_INC) % U32, cur.value_idx⟩
        (nextIdx bs.length place) fuel
    else
      some (bs.set place b)

/-- The loop of `next_while_less` (unordered_dense.h:354-364): advance while
the sought `dist_and_fingerprint` is strictly below the slot's. -/
def next_while_less_go (bs : List Bucket) (dist i : Nat) :
    Nat → Option (Nat × Nat)
  | 0 => none
  | fuel + 1 =>
    if dist < (getBucket bs i).dist_and_fingerprint then
      next_while_less_go bs ((dist + BUCKET_DIST_INC) % U32) (nextIdx bs.length i) fuel
    else
      some (dist, i)

/-- Fuel that is ample for every probe walk the engine performs: a probe's
`dist_and_fingerprint` grows by 256 per step and every slot value is below
`2^32`, so `2^24` steps plus one lap of the array always suffice. -/
def probeFuel (bs : List Bucket) : Nat :=
  bs.length + 2 ^ 24

/-- `next_while_less(key)` (unordered_dense.h:353): hash, form the sought
`dist_and_fingerprint`, start from the home bucket and walk while less. -/
def next_while_less (bs : List Bucket) (shifts k : Nat) : Option (Nat × Nat) :=
  let h := mixed_hash k
  next_while_less_go bs (dist_and_fingerprint_from_hash h)
    (bucket_idx_from_hash h shifts) (probeFuel bs)

/-- The loop of `fill_buckets_from_values` (unordered_dense.h:427-435):
place entry `i` of the value vector for `rem` successive indices `i`. -/
def fill_from (vs : List (Nat × Nat)) (shifts : Nat) (bs : List Bucket) (i : Nat) :
    Nat → Option (List Bucket)
  | 0 => some bs
  | rem + 1 =>
    match next_while_less bs shifts (getValue vs i).1 with
    | none => none
    | some (dist, place) =>
      match place_and_shift_up bs ⟨dist, i⟩ place (probeFuel bs) with
      | none => none
      | some bs' => fill_from vs shifts bs' (i + 1) rem

/-- `fill_buckets_from_values` (unordered_dense.h:427): rebuild the metadata
from the dense value vector. -/
def fill_buckets_from_values (s : Table) : Option Table :=
  match fill_from s.values s.shifts s.buckets 0 s.values.length with
  | none => none
  | some bs => some { s with buckets := bs }

/-- `increase_size` (unordered_dense.h:437-442): halve the shift count (the
bucket count doubles), reallocate zeroed metadata, rebuild from the values. -/
def increase_size (s : Table) : Option Table :=
  fill_buckets_from_values
    (allocate_and_clear_buckets { s with shifts := s.shifts - 1 })

/-- The `if (is_full()) increase_size();` prologue shared by the insert paths
(`is_full` is unordered_dense.h:399-401: `size() >= m_max_bucket_capacity`). -/
def grow_if_full (s : Table) : Option Table :=
  if s.values.length ≥ s.max_bucket_capacity then increase_size s else some s

/-- Outcome of the shared insert-path probe: either the key was found in the
slot at `bucketIdx` pointing at `valueIdx`, or the walk stopped at
`bucketIdx` with the sought `dist` strictly above the slot's value. -/
inductive ProbeResult where
  | hit (bucketIdx valueIdx : Nat)
  | miss (dist bucketIdx : Nat)
deriving DecidableEq

/-- The probe loop shared by `do_try_emplace` (unordered_dense.h:510-516) and
`emplace` (unordered_dense.h:811-820): scan while the sought value is at most
the slot's; report a hit when they are equal and the keys compare equal. -/
def probe_loop (bs : List Bucket) (vs : List (Nat × Nat)) (k dist i : Nat) :
    Nat → Option ProbeResult
  | 0 => none
  | fuel + 1 =>
    let b := getBucket bs i
    if dist ≤ b.dist_and_fingerprint then
      if dist = b.dist_and_fingerprint ∧ k = (getValue vs b.value_idx).1 then
        some (.hit i b.value_idx)
      else
        probe_loop bs vs k ((dist + BUCKET_DIST_INC) % U32) (nextIdx bs.length i) fuel
    else
      some (.miss dist i)

/-- `static_cast<uint32_t>(m_values.size()) - 1` (unordered_dense.h:524 and
:823): a `uint32_t` truncation of the size followed by a wrapping decrement. -/
def value_idx_of_size (n : Nat) : Nat :=
  (n % U32 + (U32 - 1)) % U32

/-- `do_try_emplace(key, v)` (unordered_dense.h:500-528): grow when full,
probe first; on a hit return the existing entry's index with `false` and no
change to the values; on a miss append the entry at the back and place its
slot. -/
def do_try_emplace (s : Table) (k v : Nat) : Option (Table × Nat × Bool) :=
  match grow_if_full s with
  | none => none
  | some s =>
    let h := mixed_hash k
    match probe_loop s.buckets s.values k (dist_and_fingerprint_from_hash h)
        (bucket_idx_from_hash h s.shifts) (probeFuel s.buckets) with
    | none => none
    | some (.hit _ vIdx) => some (s, vIdx, false)
    | some (.miss dist place) =>
      let values' := s.values ++ [(k, v)]
      let vIdx := value_idx_of_size values'.length
      match place_and_shift_up s.buckets ⟨dist, vIdx⟩ place (probeFuel s.buckets) with
      | none => none
      | some bs => some ({ s with values := values', buckets := bs }, vIdx, true)

/-- `emplace(args...)` (unordered_dense.h:797-827): grow when full, construct
the entry at the back of the value vector first, then probe; on a hit pop the
back and return the existing entry's index with `false`; on a miss place the
new slot. -/
def emplace (s : Table) (k v : Nat) : Option (Table × Nat × Bool) :=
  match grow_if_full s with
  | none => none
  | some s =>
    let values' := s.values ++ [(k, v)]
    let h := mixed_hash k
    match probe_loop s.buckets values' k (dist_and_fingerprint_from_hash h)
        (bucket_idx_from_hash h s.shifts) (probeFuel s.buckets) with
    | none => none
    | some (.hit _ vIdx) => some ({ s with values := values'.dropLast }, vIdx, false)
    | some (.miss dist place) =>
      let vIdx := value_idx_of_size values'.length
      match place_and_shift_up s.buckets ⟨dist, vIdx⟩ place (probeFuel s.buckets) with
      | none => none
      | some bs => some ({ s with values := values', buckets := bs }, vIdx, true)

/-- `insert(value)` (unordered_dense.h:739-745): a direct delegation to
`emplace`. -/
def insert (s : Table) (v : Nat × Nat) : Option (Table × Nat × Bool) :=
  emplace s v.1 v.2

/-- The do-while loop of `do_find` (unordered_dense.h:554-560): test the
current slot, advance, continue while the sought value is at most the next
slot's.  The inner `Option Nat` is the found value index (`none` for `end()`),
the outer `Option` is fuel. -/
def find_loop (bs : List Bucket) (vs : List (Nat × Nat)) (k dist i : Nat) :
    Nat → Option (Option Nat)
  | 0 => none
  | fuel + 1 =>
    let b := getBucket bs i
    if dist = b.dist_and_fingerprint ∧ k = (getValue vs b.value_idx).1 then
      some (some b.value_idx)
    else
      let dist' := (dist + BUCKET_DIST_INC) % U32
      let i' := nextIdx bs.length i
      if dist' ≤ (getBucket bs i').dist_and_fingerprint then
        find_loop bs vs k dist' i' fuel
      else
        some none

/-- `do_find(key)` (unordered_dense.h:530-562), generic in the (mixed) hash
function, mirroring the `Hash` template parameter: return `end()` at once on
an empty table; otherwise probe from the home bucket with the first two slots
unrolled (checked without a distance guard) before entering the do-while
loop. -/
def do_find_hashed (hashfn : Nat → Nat) (s : Table) (k : Nat) : Option (Option Nat) :=
  if s.values.isEmpty then some none
  else
    let h := hashfn k
    let dist := dist_and_fingerprint_from_hash h
    let i := bucket_idx_from_hash h s.shifts
    let b := getBucket s.buckets i
    if dist = b.dist_and_fingerprint ∧ k = (getValue s.values b.value_idx).1 then
      some (some b.value_idx)
    else
      let dist := (dist + BUCKET_DIST_INC) % U32
      let i := nextIdx s.buckets.length i
      let b := getBucket s.buckets i
      if dist = b.dist_and_fingerprint ∧ k = (getValue s.values b.value_idx).1 then
        some (some b.value_idx)
      else
        find_loop s.buckets s.values k ((dist + BUCKET_DIST_INC) % U32)
          (nextIdx s.buckets.length i) (probeFuel s.buckets)

/-- `do_find` with the engine's actual mixed hash. -/
def do_find : Table → Nat → Option (Option Nat) :=
  do_find_hashed mixed_hash

/-- The second loop of `do_erase_key` (unordered_dense.h:479-482): advance
while the `dist_and_fingerprint` matches but the keys do not. -/
def erase_scan (bs : List Bucket) (vs : List (Nat × Nat)) (k dist i : Nat) :
    Nat → Option (Nat × Nat)
  | 0 => none
  | fuel + 1 =>
    let b := getBucket bs i
    if dist = b.dist_and_fingerprint ∧ ¬ k = (getValue vs b.value_idx).1 then
      erase_scan bs vs k ((dist + BUCKET_DIST_INC) % U32) (nextIdx bs.length i) fuel
    else
      some (dist, i)

/-- The walk `while (target != bucket->value_idx) bucket = next(bucket)` used
by `do_erase` (unordered_dense.h:467-469) and `erase(iterator)`
(unordered_dense.h:859-861). -/
def find_value_idx (bs : List Bucket) (target i : Nat) : Nat → Option Nat
  | 0 => none
  | fuel + 1 =>
    if (getBucket bs i).value_idx = target then some i
    else find_value_idx bs target (nextIdx bs.length i) fuel

/-- The backward-shift loop of `do_erase` (unordered_dense.h:447-453): while
the following slot's distance is at least 2 (encoded value at least
`2 * BUCKET_DIST_INC`), copy it back one slot with the distance decremented;
finally zero the last moved-from slot. -/
def backward_shift (bs : List Bucket) (i : Nat) : Nat → Option (List Bucket)
  | 0 => none
  | fuel + 1 =>
    let ni := nextIdx bs.length i
    let nb := getBucket bs ni
    if 2 * BUCKET_DIST_INC ≤ nb.dist_and_fingerprint then
      backward_shift (bs.set i ⟨nb.dist_and_fingerprint - BUCKET_DIST_INC, nb.value_idx⟩)
        ni fuel
    else
      some (bs.set i ⟨0, 0⟩)

/-- `do_erase(bucket)` (unordered_dense.h:444-473): backward-shift the
metadata from the erased slot, then fill the hole in the dense vector with
the last entry (re-pointing the slot that references it) and pop the back. -/
def do_erase (s : Table) (bIdx : Nat) : Option Table :=
  let r := (getBucket s.buckets bIdx).value_idx
  match backward_shift s.buckets bIdx (probeFuel s.buckets) with
  | none => none
  | some bs =>
    if r ≠ s.values.length - 1 then
      let lastVal := getValue s.values (s.values.length - 1)
      let h := mixed_hash lastVal.1
      match find_value_idx bs (s.values.length - 1)
          (bucket_idx_from_hash h s.shifts) (probeFuel bs) with
      | none => none
      | some j =>
        some { s with
          values := (s.values.set r lastVal).dropLast
          buckets := bs.set j ⟨(getBucket bs j).dist_and_fingerprint, r⟩ }
    else
      some { s with values := s.values.dropLast, buckets := bs }

/-- `do_erase_key(key)` (unordered_dense.h:475-489): `next_while_less`, then
scan past equal distances with unequal keys; a distance mismatch is a miss
(count 0), otherwise erase the slot (count 1). -/
def do_erase_key (s : Table) (k : Nat) : Option (Table × Nat) :=
  match next_while_less s.buckets s.shifts k with
  | none => none
  | some (dist, i) =>
    match erase_scan s.buckets s.values k dist i (probeFuel s.buckets) with
    | none => none
    | some (dist, i) =>
      if dist ≠ (getBucket s.buckets i).dist_and_fingerprint then some (s, 0)
      else
        match do_erase s i with
        | none => none
        | some s' => some (s', 1)

/-- `erase(iterator)` (unordered_dense.h:854-865): convert the iterator to a
value index, walk the probe chain from the key's home bucket until the slot
referencing that index is found, then erase by slot. -/
def erase_it (s : Table) (pos : Nat) : Option Table :=
  let h := mixed_hash (getValue s.values pos).1
  match find_value_idx s.buckets pos (bucket_idx_from_hash h s.shifts)
      (probeFuel s.buckets) with
  | none => none
  | some bIdx => do_erase s bIdx

/-- The first loop of `erase(first, last)` (unordered_dense.h:877-880):
erase at position `i`, then at `i + 1`, for `c` iterations. -/
def erase_fwd (s : Table) (i : Nat) : Nat → Option Table
  | 0 => some s
  | c + 1 =>
    match erase_it s i with
    | none => none
    | some s' => erase_fwd s' (i + 1) c

/-- The second loop of `erase(first, last)` (unordered_dense.h:883-886):
erase at position `last - 1`, decrementing `last`, for `c` iterations. -/
def erase_bwd (s : Table) (last : Nat) : Nat → Option Table
  | 0 => some s
  | c + 1 =>
    match erase_it s (last - 1) with
    | none => none
    | some s' => erase_bwd s' (last - 1) c

/-- `erase(first, last)` (unordered_dense.h:871-887): compute
`mid = first + min(last - first, end - last)`, erase forward from `first` up
to `mid`, then erase backward from `last - 1` down to `mid`.  (The source
declares an iterator return type but returns nothing, and declares an unused
local `back`; the model returns the table.) -/
def erase_range (s : Table) (first last : Nat) : Option Table :=
  let first_to_last := last - first
  let last_to_end := s.values.length - last
  let mid := first + min first_to_last last_to_end
  match erase_fwd s first (mid - first) with
  | none => none
  | some s' => erase_bwd s' last (last - mid)

/-- `rehash(count)` (unordered_dense.h:1044-1053): recompute the shift count
for the requested capacity; when it differs, reallocate the metadata at the
new size and rebuild it from the (untouched) values.  (`shrink_to_fit` on
the value vector has no observable effect in the model.) -/
def rehash (s : Table) (count : Nat) : Option Table :=
  let shifts := calc_shifts_for_size count
  if shifts ≠ s.shifts then
    fill_buckets_from_values
      (allocate_and_clear_buckets { s with shifts := shifts })
  else
    some s

/-- `reserve(capa)` (unordered_dense.h:1055-1064): like `rehash` but only
when the new shift count is strictly smaller (more buckets). -/
def reserve (s : Table) (capa : Nat) : Option Table :=
  let shifts := calc_shifts_for_size capa
  if shifts < s.shifts then
    fill_buckets_from_values
      (allocate_and_clear_buckets { s with shifts := shifts })
  else
    some s

/-- `max_size()` (unordered_dense.h:727-730):
`std::numeric_limits<uint32_t>::max()`. -/
def max_size : Nat := 4294967295

/-- The constructors (unordered_dense.h:565-583): the bucket-count parameter
is unnamed and unused in the source (`size_t /*bucket_count*/`); every
constructor leaves `m_buckets_start == nullptr` (no metadata), capacity 0 and
`m_shifts = INITIAL_SHIFTS`. -/
def mkTable (bucket_count_hint : Nat) : Table :=
  let _ := bucket_count_hint
  { values := [], buckets := [], max_bucket_capacity := 0, shifts := INITIAL_SHIFTS }

instance : Inhabited Table := ⟨mkTable 0⟩

/-- `operator==` (unordered_dense.h:1078-1100), map case, for distinct
objects: equal sizes, and every entry of `b` is found by key in `a` with an
equal mapped value.  A fuel failure of `do_find` (never reached) counts as
not found. -/
def tableEqCheck (a b : Table) : Bool :=
  (a.values.length == b.values.length) &&
  b.values.all fun e =>
    match do_find a e.1 with
    | some (some idx) => (getValue a.values idx).2 == e.2
    | _ => false

/-- The states reachable through the public surface of the engine, starting
from any constructor. -/
inductive Reach : Table → Prop where
  | init (c : Nat) : Reach (mkTable c)
  | tryEmplaceStep {s : Table} {k v : Nat} {r : Table × Nat × Bool} :
      Reach s → do_try_emplace s k v = some r → Reach r.1
  | emplaceStep {s : Table} {k v : Nat} {r : Table × Nat × Bool} :
      Reach s → emplace s k v = some r → Reach r.1
  | eraseKeyStep {s : Table} {k : Nat} {r : Table × Nat} :
      Reach s → do_erase_key s k = some r → Reach r.1
  | eraseItStep {s s' : Table} {p : Nat} :
      Reach s → erase_it s p = some s' → Reach s'
  | eraseRangeStep {s s' : Table} {f l : Nat} :
      Reach s → erase_range s f l = some s' → Reach s'
  | rehashStep {s s' : Table} {c : Nat} :
      Reach s → rehash s c = some s' → Reach s'
  | reserveStep {s s' : Table} {c : Nat} :
      Reach s → reserve s c = some s' → Reach s'
  | clearStep {s : Table} : Reach s → Reach (clear s)

/-- The metadata-size invariant: the metadata array either holds exactly
`2^(64 - shifts)` slots, or is still the unallocated array of a freshly
constructed table (no slots, initial shift count, capacity 0, no entries). -/
def BucketLenInv (s : Table) : Prop :=
  s.buckets.length = 2 ^ (64 - s.shifts) ∨
    (s.buckets = [] ∧ s.shifts = INITIAL_SHIFTS ∧
      s.max_bucket_capacity = 0 ∧ s.values = [])

/-- The effect of `do_erase` on the dense vector alone, as a pure list
operation: overwrite position `p` with the last element and pop the back
(or just pop when `p` is the last position). -/
def eraseAtD (d : Nat × Nat) (vs : List (Nat × Nat)) (p : Nat) : List (Nat × Nat) :=
  if p ≠ vs.length - 1 then (vs.set p (vs.getD (vs.length - 1) d)).dropLast
  else vs.dropLast

/-- The pure values-level counterpart of the forward loop of
`erase(first, last)`: `c` successive `eraseAtD` steps at positions
`i, i + 1, ...`. -/
def fwdIterD (d : Nat × Nat) (vs : List (Nat × Nat)) (i : Nat) : Nat → List (Nat × Nat)
  | 0 => vs
  | c + 1 => fwdIterD d (eraseAtD d vs i) (i + 1) c

/-- The pure values-level counterpart of the backward loop of
`erase(first, last)`: `c` successive `eraseAtD` steps at positions
`last - 1, last - 2, ...`. -/
def bwdIterD (d : Nat × Nat) (vs : List (Nat × Nat)) (last : Nat) : Nat → List (Nat × Nat)
  | 0 => vs
  | c + 1 => bwdIterD d (eraseAtD d vs (last - 1)) (last - 1) c

/-- The pure values-level counterpart of `erase(first, last)`. -/
def erase_range_valuesD (d : Nat × Nat) (vs : List (Nat × Nat)) (first last : Nat) :
    List (Nat × Nat) :=
  let mid := first + min (last - first) (vs.length - last)
  bwdIterD d (fwdIterD d vs first (mid - first)) last (last - mid)

/-- The table a fresh one becomes after its first insertion of `(k, v)`:
16 zeroed buckets with the new entry's slot written at its home bucket. -/
def singleton_table (k v : Nat) : Table :=
  { values := [(k, v)]
    buckets := (List.replicate 16 (⟨0, 0⟩ : Bucket)).set
      (bucket_idx_from_hash (mixed_hash k) 60)
      ⟨dist_and_fingerprint_from_hash (mixed_hash k), 0⟩
    max_bucket_capacity := 12
    shifts := 60 }

/-- The state a fresh table reaches after its first `increase_size`: 16
zeroed buckets, capacity 12, shift count 60, still no entries. -/
def empty_grown : Table :=
  { values := []
    buckets := List.replicate 16 (⟨0, 0⟩ : Bucket)
    max_bucket_capacity := 12
    shifts := 60 }

/-- Insert a sequence of entries into a fresh table through `insert`
(unordered_dense.h:765-771 iterates `insert(*first)`). -/
def insert_all (l : List (Nat × Nat)) : Option Table :=
  l.foldlM (fun s e => (insert s e).map (·.1)) (mkTable 0)

/-- A concrete four-entry table for exercising the range erase. -/
def c4s : Table :=
  (insert_all [(1, 10), (2, 20), (3, 30), (4, 40)]).getD default

/-- A concrete seven-entry table, then `rehash(0)`: the scenario of the
rehash claim. -/
def c5tab : Option Table :=
  match insert_all [(1, 1), (2, 2), (3, 3), (4, 4), (5, 5), (6, 6), (7, 7)] with
  | none => none
  | some t => rehash t 0

/-! ### Arithmetic and bucket-array helper lemmas -/

theorem probeFuel_ne_zero (bs : List Bucket) : probeFuel bs ≠ 0 := by
  have h : 0 < 2 ^ 24 := Nat.two_pow_pos 24
  unfold probeFuel
  omega

theorem mix_lt (a b : Nat) : mix a b < U64 := by
  unfold mix
  have h64 : 0 < U64 := Nat.two_pow_pos 64
  apply Nat.xor_lt_two_pow (n := 64)
  · exact Nat.mod_lt _ h64
  · have hr : (a % U64) * (b % U64) < U64 * U64 :=
      Nat.mul_lt_mul_of_lt_of_lt (Nat.mod_lt _ h64) (Nat.mod_lt _ h64)
    exact Nat.div_lt_of_lt_mul (by exact hr)

theorem mixed_hash_lt (k : Nat) : mixed_hash k < U64 :=
  mix_lt _ _

set_option maxRecDepth 4096 in
theorem lor_256_eq_add : ∀ x, x < 256 → 256 ||| x = 256 + x := by decide

theorem dfp_eq (h : Nat) :
    dist_and_fingerprint_from_hash h = 256 + h % 256 := by
  unfold dist_and_fingerprint_from_hash BUCKET_DIST_INC
  exact lor_256_eq_add _ (Nat.mod_lt _ (by decide))

theorem dfp_lb (h : Nat) : 256 ≤ dist_and_fingerprint_from_hash h := by
  rw [dfp_eq]
  omega

theorem dfp_ub (h : Nat) : dist_and_fingerprint_from_hash h < 512 := by
  rw [dfp_eq]
  have := Nat.mod_lt h (y := 256) (by decide)
  omega

theorem bucket_idx_lt {h : Nat} (hh : h < U64) {sh : Nat} (hs : sh ≤ 64) :
    bucket_idx_from_hash h sh < 2 ^ (64 - sh) := by
  unfold bucket_idx_from_hash
  rw [Nat.shiftRight_eq_div_pow]
  apply Nat.div_lt_of_lt_mul
  have he : (2 : Nat) ^ sh * 2 ^ (64 - sh) = 2 ^ 64 := by
    rw [← pow_add]
    congr 1
    omega
  rw [he]
  exact hh

theorem getBucket_replicate (n i : Nat) :
    getBucket (List.replicate n (⟨0, 0⟩ : Bucket)) i = ⟨0, 0⟩ := by
  unfold getBucket
  rw [List.getD_eq_getElem?_getD, List.getElem?_replicate]
  split <;> rfl

theorem getBucket_set_self {bs : List Bucket} {i : Nat} {b : Bucket}
    (h : i < bs.length) : getBucket (bs.set i b) i = b := by
  unfold getBucket
  rw [List.getD_eq_getElem?_getD, List.getElem?_set_self h]
  rfl

theorem getBucket_set_ne {bs : List Bucket} {i j : Nat} {b : Bucket}
    (h : i ≠ j) : getBucket (bs.set i b) j = getBucket bs j := by
  unfold getBucket
  rw [List.getD_eq_getElem?_getD, List.getElem?_set_ne h, ← List.getD_eq_getElem?_getD]

theorem nextIdx_lt {len i : Nat} (h : i < len) : nextIdx len i < len := by
  unfold nextIdx
  split <;> omega

theorem nextIdx_ne {len i : Nat} (h2 : 2 ≤ len) :
    nextIdx len i ≠ i := by
  unfold nextIdx
  split <;> omega

theorem probe_loop_stop {bs : List Bucket} {vs : List (Nat × Nat)} {k dist i fuel : Nat}
    (hf : fuel ≠ 0) (h : ¬ dist ≤ (getBucket bs i).dist_and_fingerprint) :
    probe_loop bs vs k dist i fuel = some (.miss dist i) := by
  cases fuel with
  | zero => exact absurd rfl hf
  | succ f => simp [probe_loop, h]

theorem probe_loop_found {bs : List Bucket} {vs : List (Nat × Nat)} {k dist i fuel : Nat}
    (hf : fuel ≠ 0) (h1 : dist = (getBucket bs i).dist_and_fingerprint)
    (h2 : k = (getValue vs (getBucket bs i).value_idx).1) :
    probe_loop bs vs k dist i fuel = some (.hit i (getBucket bs i).value_idx) := by
  cases fuel with
  | zero => exact absurd rfl hf
  | succ f => simp [probe_loop, h1, h2]

theorem place_and_shift_up_stop {bs : List Bucket} {b : Bucket} {place fuel : Nat}
    (hf : fuel ≠ 0) (h : (getBucket bs place).dist_and_fingerprint = 0) :
    place_and_shift_up bs b place fuel = some (bs.set place b) := by
  cases fuel with
  | zero => exact absurd rfl hf
  | succ f => simp [place_and_shift_up, h]

theorem next_while_less_go_stop {bs : List Bucket} {dist i fuel : Nat}
    (hf : fuel ≠ 0) (h : ¬ dist < (getBucket bs i).dist_and_fingerprint) :
    next_while_less_go bs dist i fuel = some (dist, i) := by
  cases fuel with
  | zero => exact absurd rfl hf
  | succ f => simp [next_while_less_go, h]

theorem erase_scan_stop {bs : List Bucket} {vs : List (Nat × Nat)} {k dist i fuel : Nat}
    (hf : fuel ≠ 0)
    (h : ¬ (dist = (getBucket bs i).dist_and_fingerprint ∧
        ¬ k = (getValue vs (getBucket bs i).value_idx).1)) :
    erase_scan bs vs k dist i fuel = some (dist, i) := by
  cases fuel with
  | zero => exact absurd rfl hf
  | succ f => simp only [erase_scan]; rw [if_neg h]

theorem find_value_idx_found {bs : List Bucket} {target i fuel : Nat}
    (hf : fuel ≠ 0) (h : (getBucket bs i).value_idx = target) :
    find_value_idx bs target i fuel = some i := by
  cases fuel with
  | zero => exact absurd rfl hf
  | succ f => simp [find_value_idx, h]

theorem backward_shift_stop {bs : List Bucket} {i fuel : Nat}
    (hf : fuel ≠ 0)
    (h : ¬ 2 * BUCKET_DIST_INC ≤ (getBucket bs (nextIdx bs.length i)).dist_and_fingerprint) :
    backward_shift bs i fuel = some (bs.set i ⟨0, 0⟩) := by
  cases fuel with
  | zero => exact absurd rfl hf
  | succ f => simp only [backward_shift]; rw [if_neg h]

theorem probe_loop_hit_inv {bs : List Bucket} {vs : List (Nat × Nat)} {k : Nat} :
    ∀ {fuel dist i bi vi : Nat},
    probe_loop bs vs k dist i fuel = some (.hit bi vi) →
    vi = (getBucket bs bi).value_idx ∧ k = (getValue vs vi).1 := by
  intro fuel
  induction fuel with
  | zero => intro dist i bi vi h; simp [probe_loop] at h
  | succ f ih =>
    intro dist i bi vi h
    simp only [probe_loop] at h
    split at h
    · split at h
      · rename_i hle hhit
        injection h with h'
        injection h' with hbi hvi
        subst hbi
        subst hvi
        exact ⟨rfl, hhit.2⟩
      · exact ih h
    · injection h with h'
      cases h'

theorem find_value_idx_inv {bs : List Bucket} {target : Nat} :
    ∀ {fuel i j : Nat}, find_value_idx bs target i fuel = some j →
    (getBucket bs j).value_idx = target := by
  intro fuel
  induction fuel with
  | zero => intro i j h; simp [find_value_idx] at h
  | succ f ih =>
    intro i j h
    simp only [find_value_idx] at h
    split at h
    · rename_i hfound
      injection h with h'
      subst h'
      exact hfound
    · exact ih h

theorem place_and_shift_up_length :
    ∀ {fuel : Nat} {bs bs' : List Bucket} {b : Bucket} {place : Nat},
    place_and_shift_up bs b place fuel = some bs' → bs'.length = bs.length := by
  intro fuel
  induction fuel with
  | zero => intro bs bs' b place h; simp [place_and_shift_up] at h
  | succ f ih =>
    intro bs bs' b place h
    simp only [place_and_shift_up] at h
    split at h
    · have := ih h
      simpa using this
    · injection h with h'
      subst h'
      simp

theorem backward_shift_length :
    ∀ {fuel : Nat} {bs bs' : List Bucket} {i : Nat},
    backward_shift bs i fuel = some bs' → bs'.length = bs.length := by
  intro fuel
  induction fuel with
  | zero => intro bs bs' i h; simp [backward_shift] at h
  | succ f ih =>
    intro bs bs' i h
    simp only [backward_shift] at h
    split at h
    · have := ih h
      simpa using this
    · injection h with h'
      subst h'
      simp

theorem fill_from_length :
    ∀ {rem : Nat} {vs : List (Nat × Nat)} {sh : Nat} {bs bs' : List Bucket} {i : Nat},
    fill_from vs sh bs i rem = some bs' → bs'.length = bs.length := by
  intro rem
  induction rem with
  | zero =>
    intro vs sh bs bs' i h
    simp only [fill_from] at h
    injection h with h'
    subst h'
    rfl
  | succ r ih =>
    intro vs sh bs bs' i h
    simp only [fill_from] at h
    split at h
    · cases h
    · split at h
      · cases h
      · rename_i nwl p1 place hplace
        have h1 := ih h
        have h2 := place_and_shift_up_length hplace
        omega

theorem fill_buckets_from_values_spec {s s' : Table} :
    fill_buckets_from_values s = some s' →
    s'.values = s.values ∧ s'.shifts = s.shifts ∧
    s'.max_bucket_capacity = s.max_bucket_capacity ∧
    s'.buckets.length = s.buckets.length := by
  intro h
  simp only [fill_buckets_from_values] at h
  split at h
  · cases h
  · rename_i bs hbs
    injection h with h'
    subst h'
    exact ⟨rfl, rfl, rfl, fill_from_length hbs⟩

theorem increase_size_spec {s s' : Table} :
    increase_size s = some s' →
    s'.values = s.values ∧ s'.shifts = s.shifts - 1 ∧
    s'.buckets.length = 2 ^ (64 - (s.shifts - 1)) ∧
    s'.max_bucket_capacity = bucket_capacity (2 ^ (64 - (s.shifts - 1))) % U32 := by
  intro h
  have hs := fill_buckets_from_values_spec h
  simp only [allocate_and_clear_buckets] at hs
  simp only [List.length_replicate] at hs
  exact ⟨hs.1, hs.2.1, hs.2.2.2, hs.2.2.1⟩

theorem grow_if_full_values {s s' : Table} :
    grow_if_full s = some s' → s'.values = s.values := by
  intro h
  simp only [grow_if_full] at h
  split at h
  · exact (increase_size_spec h).1
  · injection h with h'
    subst h'
    rfl

theorem mkTable_eq (c : Nat) : mkTable c = mkTable 0 := rfl

theorem grow_if_full_mkTable0 :
    grow_if_full (mkTable 0) = some empty_grown := by decide

theorem grow_if_full_mkTable (c : Nat) :
    grow_if_full (mkTable c) = some empty_grown := by
  rw [mkTable_eq, grow_if_full_mkTable0]

theorem value_idx_of_size_one : value_idx_of_size 1 = 0 := by decide

theorem hm_lt (k : Nat) : bucket_idx_from_hash (mixed_hash k) 60 < 16 := by
  have h := @bucket_idx_lt (mixed_hash k) (mixed_hash_lt k) 60 (by omega)
  norm_num at h
  exact h

theorem emplace_empty (k v : Nat) :
    emplace (mkTable 0) k v = some (singleton_table k v, 0, true) := by
  have hfuel := probeFuel_ne_zero (List.replicate 16 (⟨0, 0⟩ : Bucket))
  have hprobe : probe_loop (List.replicate 16 (⟨0, 0⟩ : Bucket)) ([] ++ [(k, v)]) k
      (dist_and_fingerprint_from_hash (mixed_hash k))
      (bucket_idx_from_hash (mixed_hash k) 60)
      (probeFuel (List.replicate 16 (⟨0, 0⟩ : Bucket))) =
      some (.miss (dist_and_fingerprint_from_hash (mixed_hash k))
        (bucket_idx_from_hash (mixed_hash k) 60)) := by
    apply probe_loop_stop hfuel
    rw [getBucket_replicate]
    have := dfp_lb (mixed_hash k)
    simp only []
    omega
  have hplace : ∀ vi, place_and_shift_up (List.replicate 16 (⟨0, 0⟩ : Bucket))
      ⟨dist_and_fingerprint_from_hash (mixed_hash k), vi⟩
      (bucket_idx_from_hash (mixed_hash k) 60)
      (probeFuel (List.replicate 16 (⟨0, 0⟩ : Bucket))) =
      some ((List.replicate 16 (⟨0, 0⟩ : Bucket)).set
        (bucket_idx_from_hash (mixed_hash k) 60)
        ⟨dist_and_fingerprint_from_hash (mixed_hash k), vi⟩) := by
    intro vi
    apply place_and_shift_up_stop hfuel
    rw [getBucket_replicate]
  simp only [emplace, grow_if_full_mkTable, empty_grown, hprobe, hplace]
  simp only [List.nil_append, List.length_cons, List.length_nil, Nat.zero_add,
    value_idx_of_size_one, singleton_table]

theorem try_emplace_empty (k v : Nat) :
    do_try_emplace (mkTable 0) k v = some (singleton_table k v, 0, true) := by
  have hfuel := probeFuel_ne_zero (List.replicate 16 (⟨0, 0⟩ : Bucket))
  have hprobe : probe_loop (List.replicate 16 (⟨0, 0⟩ : Bucket)) ([] : List (Nat × Nat)) k
      (dist_and_fingerprint_from_hash (mixed_hash k))
      (bucket_idx_from_hash (mixed_hash k) 60)
      (probeFuel (List.replicate 16 (⟨0, 0⟩ : Bucket))) =
      some (.miss (dist_and_fingerprint_from_hash (mixed_hash k))
        (bucket_idx_from_hash (mixed_hash k) 60)) := by
    apply probe_loop_stop hfuel
    rw [getBucket_replicate]
    have := dfp_lb (mixed_hash k)
    simp only []
    omega
  have hplace : ∀ vi, place_and_shift_up (List.replicate 16 (⟨0, 0⟩ : Bucket))
      ⟨dist_and_fingerprint_from_hash (mixed_hash k), vi⟩
      (bucket_idx_from_hash (mixed_hash k) 60)
      (probeFuel (List.replicate 16 (⟨0, 0⟩ : Bucket))) =
      some ((List.replicate 16 (⟨0, 0⟩ : Bucket)).set
        (bucket_idx_from_hash (mixed_hash k) 60)
        ⟨dist_and_fingerprint_from_hash (mixed_hash k), vi⟩) := by
    intro vi
    apply place_and_shift_up_stop hfuel
    rw [getBucket_replicate]
  simp only [do_try_emplace, grow_if_full_mkTable, empty_grown, hprobe, hplace]
  simp only [List.nil_append, List.length_cons, List.length_nil, Nat.zero_add,
    value_idx_of_size_one, singleton_table]

theorem singleton_home_bucket (k v : Nat) :
    getBucket (singleton_table k v).buckets (bucket_idx_from_hash (mixed_hash k) 60) =
      ⟨dist_and_fingerprint_from_hash (mixed_hash k), 0⟩ := by
  simp only [singleton_table]
  exact getBucket_set_self (by simpa using hm_lt k)

theorem find_singleton (k v : Nat) :
    do_find (singleton_table k v) k = some (some 0) := by
  simp only [do_find, do_find_hashed]
  rw [if_neg (by simp [singleton_table])]
  rw [show (singleton_table k v).shifts = 60 from rfl]
  rw [singleton_home_bucket]
  rw [if_pos ⟨rfl, rfl⟩]

theorem try_emplace_singleton_dup (k v1 v2 : Nat) :
    do_try_emplace (singleton_table k v1) k v2 = some (singleton_table k v1, 0, false) := by
  have hgrow : grow_if_full (singleton_table k v1) = some (singleton_table k v1) := by
    simp only [grow_if_full]
    rw [if_neg (by simp [singleton_table])]
  have hprobe : probe_loop (singleton_table k v1).buckets (singleton_table k v1).values k
      (dist_and_fingerprint_from_hash (mixed_hash k))
      (bucket_idx_from_hash (mixed_hash k) 60)
      (probeFuel (singleton_table k v1).buckets) =
      some (.hit (bucket_idx_from_hash (mixed_hash k) 60) 0) := by
    have h := @probe_loop_found (singleton_table k v1).buckets
      (singleton_table k v1).values k
      (dist_and_fingerprint_from_hash (mixed_hash k))
      (bucket_idx_from_hash (mixed_hash k) 60)
      (probeFuel (singleton_table k v1).buckets)
      (probeFuel_ne_zero _)
      (by rw [singleton_home_bucket])
      (by rw [singleton_home_bucket]; rfl)
    rw [singleton_home_bucket] at h
    exact h
  simp only [do_try_emplace, hgrow]
  rw [show (singleton_table k v1).shifts = 60 from rfl]
  rw [hprobe]

theorem do_find_on_empty (f : Nat → Nat) (s : Table) (hk : s.values = []) (k : Nat) :
    do_find_hashed f s k = some none := by
  simp [do_find_hashed, hk]

theorem singleton_buckets_length (k v : Nat) :
    (singleton_table k v).buckets.length = 16 := by
  simp [singleton_table]

theorem erase_singleton (k v : Nat) :
    ∃ t2 : Table, do_erase_key (singleton_table k v) k = some (t2, 1) ∧
      t2.values = [] ∧ do_find t2 k = some none := by
  have hfuel := probeFuel_ne_zero (singleton_table k v).buckets
  have hnwl : next_while_less (singleton_table k v).buckets 60 k =
      some (dist_and_fingerprint_from_hash (mixed_hash k),
        bucket_idx_from_hash (mixed_hash k) 60) := by
    unfold next_while_less
    apply next_while_less_go_stop hfuel
    rw [singleton_home_bucket]
    exact lt_irrefl _
  have hscan : erase_scan (singleton_table k v).buckets (singleton_table k v).values k
      (dist_and_fingerprint_from_hash (mixed_hash k))
      (bucket_idx_from_hash (mixed_hash k) 60)
      (probeFuel (singleton_table k v).buckets) =
      some (dist_and_fingerprint_from_hash (mixed_hash k),
        bucket_idx_from_hash (mixed_hash k) 60) := by
    apply erase_scan_stop hfuel
    rw [singleton_home_bucket]
    rintro ⟨-, hne⟩
    exact hne rfl
  have hbsl : (singleton_table k v).buckets.length = 16 := singleton_buckets_length k v
  have hni : nextIdx (singleton_table k v).buckets.length
      (bucket_idx_from_hash (mixed_hash k) 60) ≠ bucket_idx_from_hash (mixed_hash k) 60 := by
    rw [hbsl]
    exact nextIdx_ne (by omega)
  have hshift : backward_shift (singleton_table k v).buckets
      (bucket_idx_from_hash (mixed_hash k) 60)
      (probeFuel (singleton_table k v).buckets) =
      some ((singleton_table k v).buckets.set
        (bucket_idx_from_hash (mixed_hash k) 60) ⟨0, 0⟩) := by
    apply backward_shift_stop hfuel
    have hne : bucket_idx_from_hash (mixed_hash k) 60 ≠
        nextIdx (singleton_table k v).buckets.length (bucket_idx_from_hash (mixed_hash k) 60) :=
      fun h => hni h.symm
    show ¬ 2 * BUCKET_DIST_INC ≤ (getBucket (singleton_table k v).buckets _).dist_and_fingerprint
    simp only [singleton_table] at hne ⊢
    rw [getBucket_set_ne hne, getBucket_replicate]
    decide
  have herase : do_erase (singleton_table k v) (bucket_idx_from_hash (mixed_hash k) 60) =
      some { values := []
             buckets := (singleton_table k v).buckets.set
               (bucket_idx_from_hash (mixed_hash k) 60) ⟨0, 0⟩
             max_bucket_capacity := 12
             shifts := 60 } := by
    simp only [do_erase, hshift, singleton_home_bucket]
    rw [if_neg (by simp [singleton_table])]
    rfl
  refine ⟨{ values := []
            buckets := (singleton_table k v).buckets.set
              (bucket_idx_from_hash (mixed_hash k) 60) ⟨0, 0⟩
            max_bucket_capacity := 12
            shifts := 60 }, ?_, rfl, do_find_on_empty _ _ rfl k⟩
  simp only [do_erase_key]
  rw [show (singleton_table k v).shifts = 60 from rfl, hnwl]
  simp only [hscan]
  rw [if_neg (by rw [singleton_home_bucket]; simp), herase]

theorem erase_empty_grown (k : Nat) :
    do_erase_key empty_grown k = some (empty_grown, 0) := by
  have hfuel := probeFuel_ne_zero empty_grown.buckets
  have hz : ∀ i, getBucket empty_grown.buckets i = ⟨0, 0⟩ := by
    intro i
    simp only [empty_grown]
    exact getBucket_replicate 16 i
  have hnwl : next_while_less empty_grown.buckets 60 k =
      some (dist_and_fingerprint_from_hash (mixed_hash k),
        bucket_idx_from_hash (mixed_hash k) 60) := by
    unfold next_while_less
    apply next_while_less_go_stop hfuel
    rw [hz]
    simp
  have hscan : erase_scan empty_grown.buckets empty_grown.values k
      (dist_and_fingerprint_from_hash (mixed_hash k))
      (bucket_idx_from_hash (mixed_hash k) 60)
      (probeFuel empty_grown.buckets) =
      some (dist_and_fingerprint_from_hash (mixed_hash k),
        bucket_idx_from_hash (mixed_hash k) 60) := by
    apply erase_scan_stop hfuel
    rw [hz]
    rintro ⟨heq, -⟩
    have := dfp_lb (mixed_hash k)
    simp only [] at heq
    omega
  simp only [do_erase_key]
  rw [show empty_grown.shifts = 60 from rfl, hnwl]
  simp only [hscan]
  rw [if_pos (by rw [hz]; have := dfp_lb (mixed_hash k); simp only []; omega)]

theorem value_idx_of_size_succ {n : Nat} (h : n + 1 < U32) :
    value_idx_of_size (n + 1) = n := by
  have hU : U32 = 4294967296 := rfl
  unfold value_idx_of_size
  rw [hU] at h ⊢
  omega

/-! ### Claim theorems -/

/-- C1: `try_emplace` probes before constructing.  Whenever the probe that
`do_try_emplace` runs (after the possible resize) finds the key, the call
returns the existing entry's index with `false`, the value array is exactly
the one before the call (the resize does not touch it), and the returned
index really holds the sought key; and concretely, for every key `k`, after
`try_emplace(k, v1)` a second `try_emplace(k, v2)` leaves the table unchanged
and `find(k)` still yields mapped value `v1`. -/
theorem claim_C1_try_emplace_probes_first :
    (∀ (s s₁ : Table) (k v bi vi : Nat),
      grow_if_full s = some s₁ →
      probe_loop s₁.buckets s₁.values k (dist_and_fingerprint_from_hash (mixed_hash k))
        (bucket_idx_from_hash (mixed_hash k) s₁.shifts) (probeFuel s₁.buckets) =
        some (.hit bi vi) →
      do_try_emplace s k v = some (s₁, vi, false) ∧ s₁.values = s.values ∧
        k = (getValue s₁.values vi).1) ∧
    (∀ k v1 v2 : Nat,
      do_try_emplace (mkTable 0) k v1 = some (singleton_table k v1, 0, true) ∧
      do_try_emplace (singleton_table k v1) k v2 = some (singleton_table k v1, 0, false) ∧
      do_find (singleton_table k v1) k = some (some 0) ∧
      (getValue (singleton_table k v1).values 0).2 = v1) := by
  constructor
  · intro s s₁ k v bi vi hgrow hprobe
    have hinv := probe_loop_hit_inv hprobe
    refine ⟨?_, grow_if_full_values hgrow, hinv.2⟩
    simp only [do_try_emplace, hgrow, hprobe]
  · intro k v1 v2
    exact ⟨try_emplace_empty k v1, try_emplace_singleton_dup k v1 v2,
      find_singleton k v1, rfl⟩

/-- Witness for C1 at the concrete table `{5 ↦ 7}`: a duplicate
`try_emplace(5, 9)` returns index 0 with `false` and leaves the table
unchanged, and the concrete round trip holds. -/
theorem claim_C1_witness :
    do_try_emplace (singleton_table 5 7) 5 9 = some (singleton_table 5 7, 0, false) ∧
    (singleton_table 5 7).values = (singleton_table 5 7).values ∧
    do_find (singleton_table 5 7) 5 = some (some 0) := by
  have h := claim_C1_try_emplace_probes_first
  have h1 := h.1 (singleton_table 5 7) (singleton_table 5 7) 5 9 1 0 (by decide) (by decide)
  exact ⟨h1.1, rfl, (h.2 5 7 9).2.2.1⟩

/-- C2: `emplace` (and `insert`, a delegation to it) constructs the entry at
the back of the value array first and probes afterwards: the probe runs over
the array with the new entry appended; on a hit the back is popped (the state
is exactly the post-resize state) and the existing index is returned with
`false`; on a miss the new slot is placed and the new entry's index is
returned with `true`. -/
theorem claim_C2_emplace_constructs_back_first :
    (∀ (s s₁ : Table) (k v : Nat), grow_if_full s = some s₁ →
      (∀ bi vi : Nat,
        probe_loop s₁.buckets (s₁.values ++ [(k, v)]) k
          (dist_and_fingerprint_from_hash (mixed_hash k))
          (bucket_idx_from_hash (mixed_hash k) s₁.shifts) (probeFuel s₁.buckets) =
          some (.hit bi vi) →
        emplace s k v = some (s₁, vi, false) ∧ s₁.values = s.values) ∧
      (∀ (d bi : Nat) (bs' : List Bucket),
        probe_loop s₁.buckets (s₁.values ++ [(k, v)]) k
          (dist_and_fingerprint_from_hash (mixed_hash k))
          (bucket_idx_from_hash (mixed_hash k) s₁.shifts) (probeFuel s₁.buckets) =
          some (.miss d bi) →
        place_and_shift_up s₁.buckets ⟨d, value_idx_of_size (s₁.values.length + 1)⟩ bi
          (probeFuel s₁.buckets) = some bs' →
        emplace s k v =
          some ({ s₁ with values := s₁.values ++ [(k, v)], buckets := bs' },
            value_idx_of_size (s₁.values.length + 1), true) ∧
        (s.values.length + 1 < U32 →
          value_idx_of_size (s₁.values.length + 1) = s.values.length))) ∧
    (∀ (s : Table) (v : Nat × Nat), insert s v = emplace s v.1 v.2) := by
  constructor
  · intro s s₁ k v hgrow
    have hlen : (s₁.values ++ [(k, v)]).length = s₁.values.length + 1 := by
      simp
    constructor
    · intro bi vi hprobe
      refine ⟨?_, grow_if_full_values hgrow⟩
      simp only [emplace, hgrow, hprobe, List.dropLast_concat]
    · intro d bi bs' hprobe hplace
      constructor
      · simp only [emplace, hgrow, hprobe, hlen, hplace]
      · intro hsz
        rw [grow_if_full_values hgrow]
        exact value_idx_of_size_succ (by omega)
  · intro s v
    rfl

/-- Witness for C2: a duplicate `emplace(5, 9)` on `{5 ↦ 7}` pops the back
and returns the existing index, and a fresh `emplace(5, 7)` on the empty
table places the new entry at index 0. -/
theorem claim_C2_witness :
    emplace (singleton_table 5 7) 5 9 = some (singleton_table 5 7, 0, false) ∧
    emplace (mkTable 0) 5 7 =
      some ({ empty_grown with
                values := [(5, 7)]
                buckets := (List.replicate 16 (⟨0, 0⟩ : Bucket)).set 1
                  ⟨dist_and_fingerprint_from_hash (mixed_hash 5), 0⟩ },
        value_idx_of_size 1, true) := by
  have h := claim_C2_emplace_constructs_back_first
  constructor
  · exact ((h.1 (singleton_table 5 7) (singleton_table 5 7) 5 9 (by decide)).1 1 0
      (by decide)).1
  · exact ((h.1 (mkTable 0) empty_grown 5 7 (by decide)).2
      (dist_and_fingerprint_from_hash (mixed_hash 5)) 1
      ((List.replicate 16 (⟨0, 0⟩ : Bucket)).set 1
        ⟨dist_and_fingerprint_from_hash (mixed_hash 5), 0⟩)
      (by decide) (by decide)).1

theorem erase_scan_inv {bs : List Bucket} {vs : List (Nat × Nat)} {k : Nat} :
    ∀ {fuel dist i dist' i' : Nat},
    erase_scan bs vs k dist i fuel = some (dist', i') →
    ¬ (dist' = (getBucket bs i').dist_and_fingerprint ∧
       ¬ k = (getValue vs (getBucket bs i').value_idx).1) := by
  intro fuel
  induction fuel with
  | zero =>
    intro dist i dist' i' h
    simp [erase_scan] at h
  | succ f ih =>
    intro dist i dist' i' h
    simp only [erase_scan] at h
    split at h
    · exact ih h
    · rename_i hstop
      injection h with h'
      injection h' with h1 h2
      subst h1
      subst h2
      exact hstop

/-- C3: for every table state and key, `erase(key)` is decided by its probe:
when the probe (the `next_while_less` walk followed by the equal-distance
scan) stops with a distance mismatch — the code's notion of "not present" —
the call returns count 0 and leaves the table unchanged; when it stops with
matching distances, the found slot really holds an entry whose key equals the
sought one ("present"), and the call erases that slot and returns count 1.
The count is never anything other than 0 or 1; on the grown empty table every
key misses; and for every key `k`, after `insert(k, v)` on a fresh table,
`find(k)` yields the entry `(k, v)` at index 0, `erase(k)` returns 1, and
afterwards `find(k)` yields the end sentinel. -/
theorem claim_C3_erase_key_hit_miss :
    (∀ (s : Table) (k dist i dist' i' : Nat),
      next_while_less s.buckets s.shifts k = some (dist, i) →
      erase_scan s.buckets s.values k dist i (probeFuel s.buckets) = some (dist', i') →
      (dist' ≠ (getBucket s.buckets i').dist_and_fingerprint →
        do_erase_key s k = some (s, 0)) ∧
      (dist' = (getBucket s.buckets i').dist_and_fingerprint →
        k = (getValue s.values (getBucket s.buckets i').value_idx).1 ∧
        ∀ s' : Table, do_erase s i' = some s' →
          do_erase_key s k = some (s', 1))) ∧
    (∀ (s : Table) (k : Nat) (r : Table × Nat),
      do_erase_key s k = some r → r.2 = 0 ∨ r.2 = 1) ∧
    (∀ k : Nat, do_erase_key empty_grown k = some (empty_grown, 0)) ∧
    (∀ k v : Nat,
      emplace (mkTable 0) k v = some (singleton_table k v, 0, true) ∧
      (singleton_table k v).values = [(k, v)] ∧
      do_find (singleton_table k v) k = some (some 0) ∧
      ∃ t2 : Table, do_erase_key (singleton_table k v) k = some (t2, 1) ∧
        t2.values = [] ∧ do_find t2 k = some none) := by
  refine ⟨?_, ?_, erase_empty_grown, ?_⟩
  · intro s k dist i dist' i' hnwl hscan
    constructor
    · intro hne
      simp only [do_erase_key, hnwl, hscan]
      rw [if_pos hne]
    · intro heq
      have hkey : k = (getValue s.values (getBucket s.buckets i').value_idx).1 := by
        by_contra hk
        exact erase_scan_inv hscan ⟨heq, hk⟩
      refine ⟨hkey, ?_⟩
      intro s' herase
      simp only [do_erase_key, hnwl, hscan]
      rw [if_neg (not_not_intro heq), herase]
  · intro s k r h
    simp only [do_erase_key] at h
    split at h
    · cases h
    · split at h
      · cases h
      · split at h
        · injection h with h'
          subst h'
          left
          rfl
        · split at h
          · cases h
          · injection h with h'
            subst h'
            right
            rfl
  · intro k v
    exact ⟨emplace_empty k v, rfl, find_singleton k v, erase_singleton k v⟩

/-- Witness for C3: at key 5 the probe on the grown empty table mismatches
(count 0, table unchanged), the probe on the one-entry table `{5 ↦ 7}`
matches at its home slot, whose entry's key is 5, and erasing it returns
count 1; the count classification applies to the miss call. -/
theorem claim_C3_witness :
    do_erase_key empty_grown 5 = some (empty_grown, 0) ∧
    5 = (getValue (singleton_table 5 7).values
      (getBucket (singleton_table 5 7).buckets 1).value_idx).1 ∧
    do_erase_key (singleton_table 5 7) 5 =
      some ((do_erase (singleton_table 5 7) 1).getD default, 1) ∧
    ((0 : Nat) = 0 ∨ (0 : Nat) = 1) := by
  have h := claim_C3_erase_key_hit_miss
  have hmiss := (h.1 empty_grown 5 362 1 362 1 (by decide) (by decide)).1 (by decide)
  have hhit := (h.1 (singleton_table 5 7) 5 362 1 362 1 (by decide) (by decide)).2 (by decide)
  exact ⟨hmiss, hhit.1,
    hhit.2 ((do_erase (singleton_table 5 7) 1).getD default) (by decide),
    h.2.1 empty_grown 5 (empty_grown, 0) hmiss⟩

/-- C10: `find` on a table with an empty value vector answers the end
sentinel at once, for every key, every hash function (the result does not
depend on it), and every metadata array, including the never-allocated
metadata of a default-constructed table. -/
theorem claim_C10_find_on_empty_table :
    (∀ (f : Nat → Nat) (bs : List Bucket) (cap sh k : Nat),
      do_find_hashed f
        { values := [], buckets := bs, max_bucket_capacity := cap, shifts := sh } k =
        some none) ∧
    (∀ k : Nat, do_find (mkTable 0) k = some none) := by
  constructor
  · intro f bs cap sh k
    exact do_find_on_empty f _ rfl k
  · intro k
    exact do_find_on_empty mixed_hash _ rfl k

/-- C8 counterexample: with the bucket-count hint 1 the freshly constructed
table has no buckets at all: the bucket count is 0 (below every power of two,
so not itself one), and its capacity 0 does not cover the hinted count 1. -/
theorem claim_C8_counterexample :
    (mkTable 1).buckets.length = 0 ∧
    (mkTable 1).buckets.length < 2 ^ 0 ∧
    bucket_capacity (mkTable 1).buckets.length < 1 := by decide

/-- C8 amended: the bucket-count hint is ignored (the constructor parameter
is unnamed in the source); every hint produces the same fresh table, with no
metadata allocated, capacity 0, and the initial shift count. -/
theorem claim_C8_amended_hint_ignored :
    ∀ c : Nat, mkTable c = mkTable 0 ∧ (mkTable c).buckets.length = 0 ∧
      (mkTable c).max_bucket_capacity = 0 ∧ (mkTable c).shifts = INITIAL_SHIFTS :=
  fun _ => ⟨rfl, rfl, rfl, rfl⟩

/-- C9 counterexample: the freshly constructed table has shift amount 61 but
0 metadata slots, strictly fewer than the `2^(64 - 61) = 8` slots the claim
says it starts with. -/
theorem claim_C9_counterexample :
    (mkTable 0).shifts = 61 ∧ (mkTable 0).buckets.length = 0 ∧
    2 ^ (64 - (mkTable 0).shifts) = 8 ∧
    (mkTable 0).buckets.length < 2 ^ (64 - (mkTable 0).shifts) := by decide

/-- C7: the insert paths contain no check against the `2^32 - 1` entry limit
reported by `max_size()`; the only gate is the load-factor capacity.  The
`uint32_t` value-index computation wraps: at the `(2^32 + 1)`-th entry it
records index 0 again. -/
theorem claim_C7_no_capacity_check :
    max_size = U32 - 1 ∧
    value_idx_of_size U32 = U32 - 1 ∧
    value_idx_of_size (U32 + 1) = 0 ∧
    (∀ s : Table,
      grow_if_full s =
        if s.values.length ≥ s.max_bucket_capacity then increase_size s else some s) := by
  exact ⟨by decide, by decide, by decide, fun s => rfl⟩

/-- C5: `rehash(0)` computes its shift count from the request 0 alone,
ignoring the live size: on a concrete 7-entry table it shrinks the metadata
to 8 buckets with capacity 6, strictly below the live size, whereas the
smallest power of two admitting 7 entries is `2^(64 - calc_shifts_for_size 7)
= 16`. -/
theorem claim_C5_rehash_zero_ignores_size :
    calc_shifts_for_size 0 = INITIAL_SHIFTS ∧
    calc_shifts_for_size 7 = 60 ∧
    2 ^ (64 - calc_shifts_for_size 7) = 16 ∧
    ∃ t : Table, c5tab = some t ∧ t.values.length = 7 ∧ t.buckets.length = 8 ∧
      t.max_bucket_capacity = 6 ∧ t.max_bucket_capacity < t.values.length ∧
      t.buckets.length < 2 ^ (64 - calc_shifts_for_size t.values.length) := by
  refine ⟨by decide, by decide, by decide, c5tab.getD default, by decide, by decide,
    by decide, by decide, by decide, by decide⟩

theorem found_entry_iff (a : Table) (e : Nat × Nat) :
    ((match do_find a e.1 with
      | some (some idx) => (getValue a.values idx).2 == e.2
      | _ => false) = true) ↔
    ∃ idx, do_find a e.1 = some (some idx) ∧ (getValue a.values idx).2 = e.2 := by
  cases hf : do_find a e.1 with
  | none => simp [hf]
  | some o =>
    cases o with
    | none => simp [hf]
    | some idx => simp [hf]

/-- C6: two tables compare equal exactly when they have the same size and
every entry of one is found by key in the other with an equal mapped value
(the source iterates the entries of `b` and finds them in `a`); and two
tables built by inserting the same three entries in different orders compare
equal both ways. -/
theorem claim_C6_equality_iff_same_entries :
    (∀ a b : Table,
      tableEqCheck a b = true ↔
        (a.values.length = b.values.length ∧
          ∀ e ∈ b.values, ∃ idx, do_find a e.1 = some (some idx) ∧
            (getValue a.values idx).2 = e.2)) ∧
    ((insert_all [(1, 10), (2, 20), (3, 30)]).isSome = true ∧
     (insert_all [(3, 30), (1, 10), (2, 20)]).isSome = true ∧
     tableEqCheck ((insert_all [(1, 10), (2, 20), (3, 30)]).getD default)
       ((insert_all [(3, 30), (1, 10), (2, 20)]).getD default) = true ∧
     tableEqCheck ((insert_all [(3, 30), (1, 10), (2, 20)]).getD default)
       ((insert_all [(1, 10), (2, 20), (3, 30)]).getD default) = true) := by
  constructor
  · intro a b
    simp only [tableEqCheck, Bool.and_eq_true, beq_iff_eq, List.all_eq_true]
    constructor
    · rintro ⟨h1, h2⟩
      exact ⟨h1, fun e he => (found_entry_iff a e).1 (h2 e he)⟩
    · rintro ⟨h1, h2⟩
      exact ⟨h1, fun e he => (found_entry_iff a e).2 (h2 e he)⟩
  · exact ⟨by decide, by decide, by decide, by decide⟩

/-- Witness for C6: unfolding the equality of the two concretely built
three-entry tables through the characterisation gives the size equality and
per-entry lookups. -/
theorem claim_C6_witness :
    ((insert_all [(1, 10), (2, 20), (3, 30)]).getD default).values.length =
      ((insert_all [(3, 30), (1, 10), (2, 20)]).getD default).values.length ∧
    (∀ e ∈ ((insert_all [(3, 30), (1, 10), (2, 20)]).getD default).values,
      ∃ idx, do_find ((insert_all [(1, 10), (2, 20), (3, 30)]).getD default) e.1 =
          some (some idx) ∧
        (getValue ((insert_all [(1, 10), (2, 20), (3, 30)]).getD default).values idx).2 =
          e.2) := by
  have h := claim_C6_equality_iff_same_entries
  exact (h.1 _ _).1 (by decide)

theorem eraseAtD_nil (d : Nat × Nat) (p : Nat) : eraseAtD d [] p = [] := by
  unfold eraseAtD
  split <;> simp

theorem grow_if_full_alloc {s s₁ : Table} (h : grow_if_full s = some s₁)
    (hP : BucketLenInv s) : s₁.buckets.length = 2 ^ (64 - s₁.shifts) := by
  simp only [grow_if_full] at h
  split at h
  · obtain ⟨-, h2, h3, -⟩ := increase_size_spec h
    rw [h3, h2]
  · injection h with h'
    subst h'
    rcases hP with hL | hR
    · exact hL
    · rename_i hc
      exfalso
      apply hc
      rw [hR.2.2.1, hR.2.2.2]
      exact Nat.le_refl 0

theorem do_try_emplace_P {s : Table} {k v : Nat} {r : Table × Nat × Bool}
    (h : do_try_emplace s k v = some r) (hP : BucketLenInv s) : BucketLenInv r.1 := by
  simp only [do_try_emplace] at h
  split at h
  · cases h
  · rename_i s₁ hgrow
    have hA := grow_if_full_alloc hgrow hP
    split at h
    · cases h
    · injection h with h'
      subst h'
      exact Or.inl hA
    · split at h
      · cases h
      · rename_i d place hmiss bs hplace
        injection h with h'
        subst h'
        left
        have := place_and_shift_up_length hplace
        simpa [this] using hA

theorem emplace_P {s : Table} {k v : Nat} {r : Table × Nat × Bool}
    (h : emplace s k v = some r) (hP : BucketLenInv s) : BucketLenInv r.1 := by
  simp only [emplace] at h
  split at h
  · cases h
  · rename_i s₁ hgrow
    have hA := grow_if_full_alloc hgrow hP
    split at h
    · cases h
    · injection h with h'
      subst h'
      exact Or.inl hA
    · split at h
      · cases h
      · rename_i d place hmiss bs hplace
        injection h with h'
        subst h'
        left
        have := place_and_shift_up_length hplace
        simpa [this] using hA

theorem do_erase_spec {s s' : Table} {b : Nat} (h : do_erase s b = some s') :
    s'.buckets.length = s.buckets.length ∧ s'.shifts = s.shifts ∧
    s'.max_bucket_capacity = s.max_bucket_capacity ∧
    s'.values = eraseAtD (0, 0) s.values (getBucket s.buckets b).value_idx := by
  simp only [do_erase] at h
  split at h
  · cases h
  · rename_i bs hshift
    have hbl := backward_shift_length hshift
    split at h
    · rename_i hne
      split at h
      · cases h
      · rename_i j hwalk
        injection h with h'
        subst h'
        refine ⟨by simpa using hbl, rfl, rfl, ?_⟩
        rw [eraseAtD, if_pos hne]
        rfl
    · rename_i hne
      injection h with h'
      subst h'
      exact ⟨hbl, rfl, rfl, by rw [eraseAtD, if_neg hne]⟩

theorem erase_it_spec {s s' : Table} {p : Nat} (h : erase_it s p = some s') :
    s'.buckets.length = s.buckets.length ∧ s'.shifts = s.shifts ∧
    s'.max_bucket_capacity = s.max_bucket_capacity ∧
    s'.values = eraseAtD (0, 0) s.values p := by
  simp only [erase_it] at h
  split at h
  · cases h
  · rename_i bIdx hwalk
    have hinv := find_value_idx_inv hwalk
    have hs := do_erase_spec h
    rw [hinv] at hs
    exact hs

theorem erase_it_P {s s' : Table} {p : Nat} (h : erase_it s p = some s')
    (hP : BucketLenInv s) : BucketLenInv s' := by
  obtain ⟨h1, h2, h3, h4⟩ := erase_it_spec h
  rcases hP with hL | hR
  · left
    rw [h1, h2, hL]
  · right
    refine ⟨?_, h2.trans hR.2.1, h3.trans hR.2.2.1, ?_⟩
    · have : s'.buckets.length = 0 := by rw [h1, hR.1]; rfl
      exact List.length_eq_zero.1 this
    · rw [h4, hR.2.2.2, eraseAtD_nil]

theorem erase_fwd_P : ∀ {c : Nat} {s s' : Table} {i : Nat},
    erase_fwd s i c = some s' → BucketLenInv s → BucketLenInv s' := by
  intro c
  induction c with
  | zero =>
    intro s s' i h hP
    injection h with h'
    subst h'
    exact hP
  | succ cc ih =>
    intro s s' i h hP
    simp only [erase_fwd] at h
    split at h
    · cases h
    · rename_i s₁ hstep
      exact ih h (erase_it_P hstep hP)

theorem erase_bwd_P : ∀ {c : Nat} {s s' : Table} {last : Nat},
    erase_bwd s last c = some s' → BucketLenInv s → BucketLenInv s' := by
  intro c
  induction c with
  | zero =>
    intro s s' last h hP
    injection h with h'
    subst h'
    exact hP
  | succ cc ih =>
    intro s s' last h hP
    simp only [erase_bwd] at h
    split at h
    · cases h
    · rename_i s₁ hstep
      exact ih h (erase_it_P hstep hP)

theorem erase_range_P {s s' : Table} {f l : Nat} (h : erase_range s f l = some s')
    (hP : BucketLenInv s) : BucketLenInv s' := by
  simp only [erase_range] at h
  split at h
  · cases h
  · rename_i s₁ hfwd
    exact erase_bwd_P h (erase_fwd_P hfwd hP)

theorem do_erase_key_P {s : Table} {k : Nat} {r : Table × Nat}
    (h : do_erase_key s k = some r) (hP : BucketLenInv s) : BucketLenInv r.1 := by
  simp only [do_erase_key] at h
  split at h
  · cases h
  · split at h
    · cases h
    · split at h
      · injection h with h'
        subst h'
        exact hP
      · split at h
        · cases h
        · rename_i s₁ herase
          injection h with h'
          subst h'
          show BucketLenInv s₁
          obtain ⟨h1, h2, h3, h4⟩ := do_erase_spec herase
          rcases hP with hL | hR
          · left
            rw [h1, h2, hL]
          · right
            refine ⟨?_, h2.trans hR.2.1, h3.trans hR.2.2.1, ?_⟩
            · have : s₁.buckets.length = 0 := by rw [h1, hR.1]; rfl
              exact List.length_eq_zero.1 this
            · rw [h4, hR.2.2.2, eraseAtD_nil]

theorem rehash_P {s s' : Table} {c : Nat} (h : rehash s c = some s')
    (hP : BucketLenInv s) : BucketLenInv s' := by
  simp only [rehash] at h
  split at h
  · have hs := fill_buckets_from_values_spec h
    left
    rw [hs.2.2.2, hs.2.1]
    simp [allocate_and_clear_buckets]
  · injection h with h'
    subst h'
    exact hP

theorem reserve_P {s s' : Table} {c : Nat} (h : reserve s c = some s')
    (hP : BucketLenInv s) : BucketLenInv s' := by
  simp only [reserve] at h
  split at h
  · have hs := fill_buckets_from_values_spec h
    left
    rw [hs.2.2.2, hs.2.1]
    simp [allocate_and_clear_buckets]
  · injection h with h'
    subst h'
    exact hP

theorem clear_P {s : Table} (hP : BucketLenInv s) : BucketLenInv (clear s) := by
  rcases hP with hL | hR
  · left
    simpa [clear] using hL
  · right
    refine ⟨?_, hR.2.1, hR.2.2.1, rfl⟩
    simp [clear, hR.1]

/-- C9 amended: the shift amount starts at 61, but the metadata array starts
unallocated (0 slots, not 8).  In every reachable state the metadata array
either holds exactly `2^(64 - s)` slots (always a power of two) or is still
the unallocated empty array of the fresh state; the first insertion into a
fresh table allocates with shift amount 60, i.e. 16 slots. -/
theorem claim_C9_amended_bucket_count_invariant :
    (∀ s : Table, Reach s → BucketLenInv s) ∧
    (∀ c k v : Nat, ∀ r : Table × Nat × Bool,
      do_try_emplace (mkTable c) k v = some r →
      r.1.shifts = 60 ∧ r.1.buckets.length = 16) ∧
    (∀ c : Nat, (mkTable c).shifts = INITIAL_SHIFTS ∧ (mkTable c).buckets.length = 0) := by
  refine ⟨?_, ?_, fun c => ⟨rfl, rfl⟩⟩
  · intro s h
    induction h with
    | init c => exact Or.inr ⟨rfl, rfl, rfl, rfl⟩
    | tryEmplaceStep _ hop ih => exact do_try_emplace_P hop ih
    | emplaceStep _ hop ih => exact emplace_P hop ih
    | eraseKeyStep _ hop ih => exact do_erase_key_P hop ih
    | eraseItStep _ hop ih => exact erase_it_P hop ih
    | eraseRangeStep _ hop ih => exact erase_range_P hop ih
    | rehashStep _ hop ih => exact rehash_P hop ih
    | reserveStep _ hop ih => exact reserve_P hop ih
    | clearStep _ ih => exact clear_P ih
  · intro c k v r h
    rw [mkTable_eq, try_emplace_empty] at h
    injection h with h'
    subst h'
    exact ⟨rfl, singleton_buckets_length k v⟩

/-- Witness for C9: the fresh table satisfies the invariant (unallocated
branch), and the concrete first insertion of `(1, 2)` yields 16 slots with
shift amount 60. -/
theorem claim_C9_witness :
    BucketLenInv (mkTable 0) ∧
    (singleton_table 1 2).shifts = 60 ∧ (singleton_table 1 2).buckets.length = 16 := by
  have h := claim_C9_amended_bucket_count_invariant
  exact ⟨h.1 (mkTable 0) (Reach.init 0),
    h.2.1 0 1 2 (singleton_table 1 2, 0, true) (by decide)⟩

theorem eraseAtD_length (d : Nat × Nat) (vs : List (Nat × Nat)) (p : Nat) :
    (eraseAtD d vs p).length = vs.length - 1 := by
  unfold eraseAtD
  split <;> simp

theorem drop_dropLast (l : List (Nat × Nat)) (m : Nat) :
    l.dropLast.drop m = (l.drop m).dropLast := by
  rw [List.dropLast_eq_take, List.drop_take, List.dropLast_eq_take, List.length_drop]
  congr 1
  omega

theorem eraseAtD_eq_of_lt {d : Nat × Nat} {vs : List (Nat × Nat)} {p : Nat}
    (h : p + 1 < vs.length) :
    eraseAtD d vs p =
      vs.take p ++ vs.getD (vs.length - 1) d :: (vs.drop (p + 1)).dropLast := by
  have hd : vs.drop (p + 1) ≠ [] := by
    apply List.ne_nil_of_length_pos
    rw [List.length_drop]
    omega
  unfold eraseAtD
  rw [if_pos (by omega), List.set_eq_take_append_cons_drop, if_pos (by omega)]
  rw [List.dropLast_append_of_ne_nil _ (List.cons_ne_nil _ _)]
  rw [List.dropLast_cons_of_ne_nil hd]

theorem getLast_drop_eq_getD (d : Nat × Nat) {vs : List (Nat × Nat)} {m : Nat}
    (hm : m < vs.length) (hne : vs.drop m ≠ []) :
    (vs.drop m).getLast hne = vs.getD (vs.length - 1) d := by
  rw [List.getLast_eq_getElem, List.getElem_drop,
    List.getD_eq_getElem vs d (n := vs.length - 1) (by omega)]
  congr 1
  rw [List.length_drop]
  omega

theorem rev_drop_cons (d : Nat × Nat) {vs : List (Nat × Nat)} {m : Nat}
    (hm : m < vs.length) :
    (vs.drop m).reverse = vs.getD (vs.length - 1) d :: (vs.drop m).dropLast.reverse := by
  have hne : vs.drop m ≠ [] := by
    apply List.ne_nil_of_length_pos
    rw [List.length_drop]
    omega
  conv_lhs => rw [← List.dropLast_append_getLast hne]
  rw [List.reverse_append, List.reverse_singleton, getLast_drop_eq_getD d hm hne]
  rfl

theorem fwdIterD_eq (d : Nat × Nat) :
    ∀ (c : Nat) (vs : List (Nat × Nat)) (p : Nat), p + 2 * c ≤ vs.length →
      fwdIterD d vs p c =
        vs.take p ++ (vs.drop (vs.length - c)).reverse ++
          (vs.drop (p + c)).take (vs.length - p - 2 * c) := by
  intro c
  induction c with
  | zero =>
    intro vs p h
    show vs = _
    rw [Nat.sub_zero, List.drop_length, List.reverse_nil, List.append_nil, Nat.add_zero,
      Nat.mul_zero, Nat.sub_zero]
    rw [show (vs.drop p).take (vs.length - p) = vs.drop p from
      List.take_of_length_le (by rw [List.length_drop])]
    rw [List.take_append_drop]
  | succ cc ih =>
    intro vs p h
    have hpp : p + 1 < vs.length := by omega
    set n := vs.length with hn
    have hlen_e : (eraseAtD d vs p).length = n - 1 := eraseAtD_length d vs p
    have hstep := ih (eraseAtD d vs p) (p + 1) (by rw [hlen_e]; omega)
    show fwdIterD d (eraseAtD d vs p) (p + 1) cc = _
    rw [hstep, hlen_e]
    have hA : (vs.take p).length = p := by
      rw [List.length_take]
      omega
    have hdecomp := eraseAtD_eq_of_lt (d := d) hpp
    have hp1 : (eraseAtD d vs p).take (p + 1) =
        vs.take p ++ [vs.getD (n - 1) d] := by
      rw [hdecomp, List.take_append_eq_append_take, hA]
      rw [List.take_take]
      rw [min_eq_right (by omega)]
      rw [Nat.add_sub_cancel_left, List.take_succ_cons, List.take_zero]
    have hp2 : (eraseAtD d vs p).drop (n - 1 - cc) =
        (vs.drop (n - cc - 1)).dropLast := by
      rw [hdecomp, List.drop_append_eq_append_drop, hA]
      rw [List.drop_eq_nil_of_le (by rw [hA]; omega), List.nil_append]
      have hidx : n - 1 - cc - p = (n - 2 - cc - p) + 1 := by omega
      rw [hidx, List.drop_succ_cons, drop_dropLast, List.drop_drop]
      congr 2
      omega
    have hp3 : ((eraseAtD d vs p).drop (p + 1 + cc)).take (n - 1 - (p + 1) - 2 * cc) =
        (vs.drop (p + 1 + cc)).take (n - p - 2 * (cc + 1)) := by
      rw [hdecomp, List.drop_append_eq_append_drop, hA]
      rw [List.drop_eq_nil_of_le (by rw [hA]; omega), List.nil_append]
      have hidx : p + 1 + cc - p = cc + 1 := by omega
      rw [hidx, List.drop_succ_cons, drop_dropLast, List.drop_drop]
      rw [List.dropLast_eq_take, List.take_take, List.length_drop]
      rw [min_eq_left (by omega)]
      congr 1
      omega
    rw [hp1, hp2, hp3]
    rw [rev_drop_cons d (m := n - (cc + 1)) (by omega)]
    have hm : n - cc - 1 = n - (cc + 1) := by omega
    rw [hm]
    have hm2 : p + 1 + cc = p + (cc + 1) := by omega
    rw [hm2]
    simp only [List.append_assoc, List.cons_append, List.nil_append]

theorem fwdIterD_length (d : Nat × Nat) {c : Nat} {vs : List (Nat × Nat)} {p : Nat}
    (h : p + 2 * c ≤ vs.length) :
    (fwdIterD d vs p c).length = vs.length - c := by
  rw [fwdIterD_eq d c vs p h]
  simp only [List.length_append, List.length_take, List.length_drop, List.length_reverse]
  omega

theorem fwdIterD_perm (d : Nat × Nat) {c : Nat} {vs : List (Nat × Nat)} {p : Nat}
    (h : p + 2 * c ≤ vs.length) :
    (fwdIterD d vs p c).Perm (vs.take p ++ vs.drop (p + c)) := by
  rw [fwdIterD_eq d c vs p h]
  have hsplit : vs.drop (p + c) =
      (vs.drop (p + c)).take (vs.length - p - 2 * c) ++ vs.drop (vs.length - c) := by
    conv_lhs => rw [← List.take_append_drop (vs.length - p - 2 * c) (vs.drop (p + c))]
    rw [List.drop_drop]
    congr 2
    omega
  conv_rhs => rw [hsplit]
  rw [List.append_assoc]
  apply List.Perm.append_left
  exact List.Perm.trans (List.Perm.append_right _ (List.reverse_perm _))
    List.perm_append_comm

theorem fwdIterD_take_perm (d : Nat × Nat) {c : Nat} {vs : List (Nat × Nat)} {p : Nat}
    (h : p + 2 * c ≤ vs.length) :
    ((fwdIterD d vs p c).take (p + c)).Perm (vs.take p ++ vs.drop (vs.length - c)) := by
  rw [fwdIterD_eq d c vs p h]
  have hlen : (vs.take p ++ (vs.drop (vs.length - c)).reverse).length = p + c := by
    simp only [List.length_append, List.length_take, List.length_reverse, List.length_drop]
    omega
  rw [List.take_append_eq_append_take, hlen, Nat.sub_self, List.take_zero, List.append_nil]
  rw [List.take_of_length_le (le_of_eq hlen)]
  exact List.Perm.append_left _ (List.reverse_perm _)

theorem bwdIterD_eq_take (d : Nat × Nat) :
    ∀ (c : Nat) (vs : List (Nat × Nat)), c ≤ vs.length →
      bwdIterD d vs vs.length c = vs.take (vs.length - c) := by
  intro c
  induction c with
  | zero =>
    intro vs h
    show vs = _
    rw [Nat.sub_zero, List.take_length]
  | succ cc ih =>
    intro vs h
    have he : eraseAtD d vs (vs.length - 1) = vs.dropLast := by
      unfold eraseAtD
      rw [if_neg (by omega)]
    show bwdIterD d (eraseAtD d vs (vs.length - 1)) (vs.length - 1) cc = _
    rw [he]
    have hlen : vs.dropLast.length = vs.length - 1 := List.length_dropLast vs
    rw [show vs.length - 1 = vs.dropLast.length from hlen.symm]
    rw [ih vs.dropLast (by rw [hlen]; omega)]
    rw [hlen, List.dropLast_eq_take, List.take_take]
    rw [min_eq_left (by omega)]
    congr 1
    omega

theorem erase_fwd_values : ∀ {c : Nat} {s s' : Table} {i : Nat},
    erase_fwd s i c = some s' → s'.values = fwdIterD (0, 0) s.values i c := by
  intro c
  induction c with
  | zero =>
    intro s s' i h
    injection h with h'
    subst h'
    rfl
  | succ cc ih =>
    intro s s' i h
    simp only [erase_fwd] at h
    split at h
    · cases h
    · rename_i s₁ hstep
      show s'.values = fwdIterD (0, 0) (eraseAtD (0, 0) s.values i) (i + 1) cc
      rw [← (erase_it_spec hstep).2.2.2]
      exact ih h

theorem erase_bwd_values : ∀ {c : Nat} {s s' : Table} {last : Nat},
    erase_bwd s last c = some s' → s'.values = bwdIterD (0, 0) s.values last c := by
  intro c
  induction c with
  | zero =>
    intro s s' last h
    injection h with h'
    subst h'
    rfl
  | succ cc ih =>
    intro s s' last h
    simp only [erase_bwd] at h
    split at h
    · cases h
    · rename_i s₁ hstep
      show s'.values = bwdIterD (0, 0) (eraseAtD (0, 0) s.values (last - 1)) (last - 1) cc
      rw [← (erase_it_spec hstep).2.2.2]
      exact ih h

theorem erase_range_values_proj {s s' : Table} {f l : Nat}
    (h : erase_range s f l = some s') :
    s'.values = erase_range_valuesD (0, 0) s.values f l := by
  simp only [erase_range] at h
  split at h
  · cases h
  · rename_i s₁ hfwd
    have h1 := erase_fwd_values hfwd
    have h2 := erase_bwd_values h
    show s'.values =
      bwdIterD (0, 0)
        (fwdIterD (0, 0) s.values f
          (f + min (l - f) (s.values.length - l) - f)) l
        (l - (f + min (l - f) (s.values.length - l)))
    rw [h2, h1]

theorem erase_range_valuesD_perm (d : Nat × Nat) {vs : List (Nat × Nat)} {f l : Nat}
    (hfl : f ≤ l) (hln : l ≤ vs.length) :
    (erase_range_valuesD d vs f l).Perm (vs.take f ++ vs.drop l) := by
  show (bwdIterD d
      (fwdIterD d vs f (f + min (l - f) (vs.length - l) - f)) l
      (l - (f + min (l - f) (vs.length - l)))).Perm (vs.take f ++ vs.drop l)
  rcases le_or_lt (l - f) (vs.length - l) with hc | hc
  · rw [min_eq_left hc]
    rw [show f + (l - f) = l from by omega, Nat.sub_self]
    show (fwdIterD d vs f (l - f)).Perm _
    have hp := @fwdIterD_perm d (l - f) vs f (by omega)
    rwa [show f + (l - f) = l from by omega] at hp
  · rw [min_eq_right (by omega), Nat.add_sub_cancel_left]
    have hcond : f + 2 * (vs.length - l) ≤ vs.length := by omega
    have hFlen : (fwdIterD d vs f (vs.length - l)).length = l := by
      rw [fwdIterD_length d hcond]
      omega
    have hb := bwdIterD_eq_take d (l - (f + (vs.length - l)))
      (fwdIterD d vs f (vs.length - l)) (by rw [hFlen]; omega)
    rw [hFlen] at hb
    rw [hb]
    rw [show l - (l - (f + (vs.length - l))) = f + (vs.length - l) from by omega]
    have hp := @fwdIterD_take_perm d (vs.length - l) vs f hcond
    rwa [show vs.length - (vs.length - l) = l from by omega] at hp

/-- C4: after `erase(first, last)` on a table with pairwise distinct entries,
the surviving entry multiset is exactly the original one outside positions
`[first, last)`: every entry originally inside the range is absent and every
entry originally outside it is still present. -/
theorem claim_C4_erase_range_postcondition :
    ∀ (s s' : Table) (f l : Nat), f ≤ l → l ≤ s.values.length → s.values.Nodup →
    erase_range s f l = some s' →
    s'.values.Perm (s.values.take f ++ s.values.drop l) ∧
    (∀ i, f ≤ i → i < l → s.values.getD i (0, 0) ∉ s'.values) ∧
    (∀ i, i < s.values.length → (i < f ∨ l ≤ i) → s.values.getD i (0, 0) ∈ s'.values) := by
  intro s s' f l hfl hln hnd h
  have hproj := erase_range_values_proj h
  have hperm : s'.values.Perm (s.values.take f ++ s.values.drop l) := by
    rw [hproj]
    exact erase_range_valuesD_perm _ hfl hln
  refine ⟨hperm, ?_, ?_⟩
  · intro i hfi hil hmem
    have hilen : i < s.values.length := by omega
    rw [List.getD_eq_getElem s.values (0, 0) hilen] at hmem
    have hin : s.values[i] ∈ s.values.take f ++ s.values.drop l :=
      hperm.mem_iff.1 hmem
    rcases List.mem_append.1 hin with hmem2 | hmem2
    · obtain ⟨j, hj, hje⟩ := List.getElem_of_mem hmem2
      rw [List.getElem_take] at hje
      have hjf : j < f := by
        rw [List.length_take] at hj
        omega
      have : j = i := (hnd.getElem_inj_iff).1 hje
      omega
    · obtain ⟨j, hj, hje⟩ := List.getElem_of_mem hmem2
      rw [List.getElem_drop] at hje
      have : l + j = i := (hnd.getElem_inj_iff).1 hje
      omega
  · intro i hilen hcase
    rw [List.getD_eq_getElem s.values (0, 0) hilen]
    apply hperm.mem_iff.2
    apply List.mem_append.2
    rcases hcase with hif | hli
    · left
      have hj : i < (s.values.take f).length := by
        rw [List.length_take]
        omega
      have hm := List.getElem_mem hj
      rwa [List.getElem_take] at hm
    · right
      have hj : i - l < (s.values.drop l).length := by
        rw [List.length_drop]
        omega
      have hgeq : (s.values.drop l)[i - l] = s.values[i] := by
        rw [List.getElem_drop]
        congr 1
        omega
      rw [← hgeq]
      exact List.getElem_mem hj

/-- Witness for C4: erasing positions `[1, 3)` from the concrete four-entry
table removes exactly its second and third entries. -/
theorem claim_C4_witness :
    c4s.values = [(1, 10), (2, 20), (3, 30), (4, 40)] ∧
    ∃ s' : Table, erase_range c4s 1 3 = some s' ∧
      (2, 20) ∉ s'.values ∧ (3, 30) ∉ s'.values ∧
      (1, 10) ∈ s'.values ∧ (4, 40) ∈ s'.values := by
  have hsome : erase_range c4s 1 3 = some ((erase_range c4s 1 3).getD default) := by decide
  have h := claim_C4_erase_range_postcondition c4s ((erase_range c4s 1 3).getD default)
    1 3 (by decide) (by decide) (by decide) hsome
  refine ⟨by decide, (erase_range c4s 1 3).getD default, hsome, ?_, ?_, ?_, ?_⟩
  · have h2 := h.2.1 1 (by decide) (by decide)
    rwa [show c4s.values.getD 1 (0, 0) = (2, 20) from by decide] at h2
  · have h2 := h.2.1 2 (by decide) (by decide)
    rwa [show c4s.values.getD 2 (0, 0) = (3, 30) from by decide] at h2
  · have h2 := h.2.2 0 (by decide) (Or.inl (by decide))
    rwa [show c4s.values.getD 0 (0, 0) = (1, 10) from by decide] at h2
  · have h2 := h.2.2 3 (by decide) (Or.inr (by decide))
    rwa [show c4s.values.getD 3 (0, 0) = (4, 40) from by decide] at h2

end UnorderedDense
